import Mathlib

/-!
Verification of the ContentProjection extraction pipeline.

The embedding models the server pipeline of `aggressivelyCleanHtml`
(junk removal, candidate scoring, list pruning, link dedup/cap, text
rendering and whitespace normalisation, the `/extract` response shape)
and the client-side `formatContent` block formatter.

JavaScript strings are modelled as Lean `String`/`List Char`;
JavaScript numbers used by the scorer are modelled as exact rationals
(the score arithmetic here involves only small decimal quantities).
The special float cases that the source relies on (`NaN > 0.5` is
false, `x / 0` is `Infinity` for `x > 0`) are made explicit where the
source divides without a guard.
-/

/-! ## Character and string utilities (JS semantics) -/

/-- JS horizontal whitespace matched by the regex class `[ \t]`. -/
def isHorizChar (c : Char) : Bool := c = ' ' || c = '\t'

/-- ASCII whitespace matched by the JS regex class `\s` (and trimmed by
`String.prototype.trim`). -/
def isWsChar (c : Char) : Bool :=
  c = ' ' || c = '\t' || c = '\n' || c = '\r' || c = '\x0b' || c = '\x0c'

/-- Boolean prefix test on character lists (`String.prototype.startsWith`). -/
def startsList : List Char → List Char → Bool
  | [], _ => true
  | _ :: _, [] => false
  | p :: ps, c :: cs => p = c && startsList ps cs

/-- JS `s.startsWith(pre)`. -/
def strStarts (s pre : String) : Bool := startsList pre.data s.data

/-- Boolean infix test on character lists (`String.prototype.includes`). -/
def containsSub (needle : List Char) : List Char → Bool
  | [] => needle.isEmpty
  | c :: rest => startsList needle (c :: rest) || containsSub needle rest

/-- JS `hay.includes(needle)`. -/
def containsStr (hay needle : String) : Bool := containsSub needle.data hay.data

/-- JS `s.toLowerCase()`, on the ASCII range (all the substrings the
source compares against are ASCII). -/
def toLowerStr (s : String) : String := ⟨s.data.map Char.toLower⟩

/-- Trim on character lists: drop leading whitespace, then trailing. -/
def trimChars (l : List Char) : List Char :=
  ((l.dropWhile isWsChar).reverse.dropWhile isWsChar).reverse

/-- JS `s.trim()`. -/
def jsTrim (s : String) : String := ⟨trimChars s.data⟩

/-- JS `s.split('\n')`: split into lines, keeping empty pieces. -/
def splitLinesAux : List Char → List (List Char)
  | [] => [[]]
  | c :: rest =>
    let r := splitLinesAux rest
    if c = '\n' then [] :: r
    else
      match r with
      | [] => [[c]]
      | line :: more => (c :: line) :: more

/-- JS `text.split('\n')`. -/
def splitLines (s : String) : List String := (splitLinesAux s.data).map (fun l => ⟨l⟩)

/-! ## Block formatter (`formatContent` in the Angular component) -/

/-- The `ContentBlock` union type of the client component. -/
inductive ContentBlock where
  | heading (level : Nat) (text : String)
  | paragraph (text : String)
  | bullets (items : List String)
  | code (text : String)
deriving DecidableEq

/-- The mutable scan state of `formatContent`: emitted blocks, the open
bullet list (`currentList`), the code-fence flag (`inCodeBlock`) and the
code accumulator (`currentCode`). -/
structure FmtState where
  blocks : List ContentBlock
  currentList : Option (List String)
  inCode : Bool
  currentCode : String
deriving DecidableEq

/-- Flush the open bullet list, if any, as a `bullets` block. -/
def flushList (st : FmtState) : FmtState :=
  match st.currentList with
  | some items => { st with blocks := st.blocks ++ [ContentBlock.bullets items], currentList := none }
  | none => st

/-- One iteration of the `for (const line of lines)` loop of
`formatContent` (the JS `const` aliases are inlined: `flushList st` does
not change `currentCode`, so reading it after the flush is the same). -/
def formatStep (st : FmtState) (line : String) : FmtState :=
  if strStarts (jsTrim line) "```" then
    if st.inCode then
      { flushList st with
          blocks := (flushList st).blocks ++ [ContentBlock.code (jsTrim st.currentCode)],
          currentCode := "", inCode := false }
    else
      { flushList st with inCode := true }
  else if st.inCode then
    { st with currentCode := st.currentCode ++ line ++ "\n" }
  else if strStarts (jsTrim line) "#" then
    { flushList st with
        blocks := (flushList st).blocks ++
          [ContentBlock.heading
            (if strStarts (jsTrim line) "###" then 3
             else if strStarts (jsTrim line) "##" then 2 else 1)
            (jsTrim ⟨(jsTrim line).data.filter (fun c => c ≠ '#')⟩)] }
  else if strStarts (jsTrim line) "* " || strStarts (jsTrim line) "- " then
    match st.currentList with
    | some items => { st with currentList := some (items ++ [⟨(jsTrim line).data.drop 2⟩]) }
    | none => { st with currentList := some [⟨(jsTrim line).data.drop 2⟩] }
  else if jsTrim line ≠ "" then
    { flushList st with
        blocks := (flushList st).blocks ++ [ContentBlock.paragraph (jsTrim line)] }
  else
    flushList st

/-- The function `formatContent` of the Angular component: split into lines, scan with
the state machine, flush a trailing open list. -/
def formatContent (text : String) : List ContentBlock :=
  if text = "" then []
  else (flushList ((splitLines text).foldl formatStep ⟨[], none, false, ""⟩)).blocks

/-! ## Markup tree model

A parsed document node: a text node, or an element with a tag name, a
`class` attribute, an `id` attribute and a forest of children.  The
forest type is mutually inductive with the node type so that all tree
functions are structurally recursive.  The parser (`cheerio.load`)
normalises HTML tag names to lower case; attribute values are kept
verbatim.  Anchor targets (`href`) play no role in the tree-level claims
and are not carried. -/

mutual
inductive Node where
  | text (s : String)
  | elem (tag cls id : String) (children : NodeForest)
deriving DecidableEq
inductive NodeForest where
  | nil
  | cons (hd : Node) (tl : NodeForest)
deriving DecidableEq
end

/-- Appending forests. -/
def nfAppend : NodeForest → NodeForest → NodeForest
  | .nil, ys => ys
  | .cons x xs, ys => .cons x (nfAppend xs ys)

instance : Append NodeForest := ⟨nfAppend⟩

/-- Building a forest from a list of nodes (for readable fixtures). -/
def nfOf : List Node → NodeForest
  | [] => .nil
  | n :: rest => .cons n (nfOf rest)

/-- Tag of a node (text nodes have none). -/
def tagOf : Node → String
  | .text _ => ""
  | .elem t _ _ _ => t

/-- Class attribute of a node. -/
def clsOf : Node → String
  | .text _ => ""
  | .elem _ c _ _ => c

/-- Id attribute of a node. -/
def idOf : Node → String
  | .text _ => ""
  | .elem _ _ i _ => i

/-- Children of a node. -/
def childrenOf : Node → NodeForest
  | .text _ => .nil
  | .elem _ _ _ ch => ch

mutual
/-- Text of one node: `$el.text()` concatenates all descendant text
nodes in document order. -/
def textN : Node → List Char
  | .text s => s.data
  | .elem _ _ _ ch => textF ch
/-- Text of a forest. -/
def textF : NodeForest → List Char
  | .nil => []
  | .cons n rest => textN n ++ textF rest
end

mutual
/-- All elements of the subtree rooted at a node, in document order. -/
def nodesN : Node → List Node
  | .text _ => []
  | .elem t c i ch => .elem t c i ch :: nodesF ch
/-- All elements of a forest in document order (the order cheerio visits
the matches of a selector). -/
def nodesF : NodeForest → List Node
  | .nil => []
  | .cons n rest => nodesN n ++ nodesF rest
end

/-! ## Junk remover (`$(badSelectors.join(', ')).remove()`) -/

/-- Tag names removed outright by the junk-removal selector list. -/
def junkTags : List String := ["nav", "header", "footer", "aside", "form", "iframe"]

/-- Class names removed via `.name` selectors.  A CSS class selector
matches an element whose `class` attribute, split on whitespace, contains
the name as an exact token. -/
def junkClasses : List String :=
  ["sidebar", "menu", "navbar", "nav", "ad", "promo", "comments", "related",
   "toc", "table-of-contents", "social-share", "breadcrumbs"]

/-- Whitespace-separated tokens of a `class` attribute value. -/
def classTokens (cls : String) : List String :=
  ((cls.data.splitOnP isWsChar).filter (fun l => ¬ l.isEmpty)).map (fun l => ⟨l⟩)

/-- Whether one element is matched by the junk-removal selector list
`nav, header, footer, aside, form, iframe, .sidebar, #sidebar, .menu,
.navbar, .nav, .ad, .promo, .comments, .related, .toc,
.table-of-contents, .social-share, .breadcrumbs`. -/
def junkMatch (tag cls id : String) : Bool :=
  tag ∈ junkTags || (classTokens cls).any (fun t => t ∈ junkClasses) || id = "sidebar"

mutual
/-- Junk removal below one node: the node vanishes when matched,
otherwise it is kept with its children cleaned. -/
def removeJunkN : Node → NodeForest
  | .text s => .cons (.text s) .nil
  | .elem t c i ch =>
    if junkMatch t c i then .nil
    else .cons (.elem t c i (removeJunkF ch)) .nil
/-- Destructive removal of every subtree matched by the junk selectors. -/
def removeJunkF : NodeForest → NodeForest
  | .nil => .nil
  | .cons n rest => removeJunkN n ++ removeJunkF rest
end

/-! ## Candidate scorer -/

/-- The content signals of one element that the scorer reads: tag,
class/id attributes, number of descendant `p` elements
(`$el.find('p').length`), total text length (`$el.text().length`) and
total anchor text length (`$el.find('a').text().length`). -/
structure ElemView where
  tag : String
  cls : String
  id : String
  paragraphCount : Nat
  textLength : Nat
  linkTextLength : Nat
deriving DecidableEq

/-- Tags walked by the scorer's selector `$('div, article, main, section')`. -/
def candidateTags : List String := ["div", "article", "main", "section"]

/-- The scorer body: `none` when the element is skipped (not a candidate
tag, sidebar/widget name, or fewer than 2 descendant paragraphs), else
`some score` computed as in the source (`score += ...` steps). -/
def scoreOf (e : ElemView) : Option ℚ :=
  if e.tag ∈ candidateTags then
    let lowerClass := toLowerStr (e.cls ++ " " ++ e.id)
    if containsStr lowerClass "sidebar" || containsStr lowerClass "widget" then none
    else if e.paragraphCount < 2 then none
    else
      let score : ℚ := 0
      let score := if containsStr lowerClass "article" || containsStr lowerClass "post"
                      || containsStr lowerClass "content" then score + 25 else score
      let score := score + min ((e.textLength : ℚ) / 100) 50
      let score := score + (e.paragraphCount : ℚ) * 5
      let linkDensity := (e.linkTextLength : ℚ) / max (e.textLength : ℚ) 1
      let score := if linkDensity > 1/2 then score - 1000 else score
      some score
  else none

/-- Total anchor text length below a forest, as
`$el.find('a').text().length` computes it: the text of every descendant
anchor, concatenated per matched anchor. -/
def anchorTextLen (ch : NodeForest) : Nat :=
  (((nodesF ch).filter (fun n => tagOf n = "a")).map
    (fun n => (textF (childrenOf n)).length)).sum

/-- The signals of a concrete element node, as cheerio computes them. -/
def viewOf : Node → ElemView
  | .text _ => ⟨"", "", "", 0, 0, 0⟩
  | .elem t c i ch =>
    { tag := t, cls := c, id := i,
      paragraphCount := ((nodesF ch).filter (fun n => tagOf n = "p")).length,
      textLength := (textF ch).length,
      linkTextLength := anchorTextLen ch }

/-- A cheerio selection is a JavaScript object and is therefore truthy
even when it matches nothing; this models the `||` chain of the source's
fallback line. -/
def cheerioTruthy (_ : List Node) : Bool := true

/-- The winner fold (`maxScore` starts at 0, strict `>` replaces) and
the fallback line `$bestCandidate || $('article').first() || $('body')`. -/
def selectContent (d : NodeForest) : List Node :=
  let best := (nodesF d).foldl
    (fun acc n =>
      match scoreOf (viewOf n) with
      | none => acc
      | some s => if s > acc.1 then (s, some n) else acc)
    ((0 : ℚ), (none : Option Node))
  match best.2 with
  | some n => [n]
  | none =>
    let firstArticle := ((nodesF d).filter (fun n => tagOf n = "article")).take 1
    if cheerioTruthy firstArticle then firstArticle
    else ((nodesF d).filter (fun n => tagOf n = "body")).take 1

/-! ## List pruner

For each `ul`/`ol` inside the content root the source computes
`listLinkText / listText` with no divide-by-zero guard and removes the
list when the ratio exceeds `0.5`.  JS float semantics at `listText = 0`:
`0 / 0` is `NaN` and `NaN > 0.5` is false; `n / 0` for `n > 0` is
`Infinity` and `Infinity > 0.5` is true.  Both cases are spelled out. -/

/-- Whether the pruner removes a list with the given anchor-text length
and total text length. -/
def listPruned (linkLen totalLen : Nat) : Bool :=
  if totalLen = 0 then
    if linkLen = 0 then false else true
  else decide ((linkLen : ℚ) / (totalLen : ℚ) > 1/2)

mutual
/-- The pruner pass below one node. -/
def pruneListsN : Node → NodeForest
  | .text s => .cons (.text s) .nil
  | .elem t c i ch =>
    if (t = "ul" || t = "ol") && listPruned (anchorTextLen ch) (textF ch).length then .nil
    else .cons (.elem t c i (pruneListsF ch)) .nil
/-- The pruner pass over the content root's descendants: remove each
`ul`/`ol` subtree whose link density exceeds one half. -/
def pruneListsF : NodeForest → NodeForest
  | .nil => .nil
  | .cons n rest => pruneListsN n ++ pruneListsF rest
end

/-! ## Link extractor (dedup and cap) -/

/-- First-seen deduplication of `(title, url)` pairs, as the JS `Set` of
JSON strings keeps insertion order and drops later duplicates. -/
def dedupKeepFirst : List (String × String) → List (String × String)
  | [] => []
  | a :: rest => a :: (dedupKeepFirst rest).filter (fun b => b ≠ a)

/-- Modelling `Array.from(foundLinks).map(JSON.parse).slice(0, 5)`: the related
links produced from the qualifying anchors, in document order. -/
def relatedLinksOf (anchors : List (String × String)) : List (String × String) :=
  (dedupKeepFirst anchors).take 5

/-! ## Text renderer -/

/-- The block-level tags that receive a separator in
`$content.find('h1, h2, h3, h4, p, li, pre').after('\n\n')`. -/
def blockTags : List String := ["h1", "h2", "h3", "h4", "p", "li", "pre"]

mutual
/-- Separator insertion below one node. -/
def addSepsN : Node → NodeForest
  | .text s => .cons (.text s) .nil
  | .elem t c i ch =>
    if t ∈ blockTags then .cons (.elem t c i (addSepsF ch)) (.cons (.text "\n\n") .nil)
    else .cons (.elem t c i (addSepsF ch)) .nil
/-- Separator insertion `.after('\n\n')` on every block-tagged descendant: insert a text node
`"\n\n"` right after each such element. -/
def addSepsF : NodeForest → NodeForest
  | .nil => .nil
  | .cons n rest => addSepsN n ++ addSepsF rest
end

mutual
/-- Line-break replacement below one node. -/
def replaceBrN : Node → NodeForest
  | .text s => .cons (.text s) .nil
  | .elem t c i ch =>
    if t = "br" then .cons (.text "\n") .nil
    else .cons (.elem t c i (replaceBrF ch)) .nil
/-- Modelling `$content.find('br').replaceWith('\n')`: each `br` element becomes a
single line-break text node. -/
def replaceBrF : NodeForest → NodeForest
  | .nil => .nil
  | .cons n rest => replaceBrN n ++ replaceBrF rest
end

/-- Scan for `.replace(/[ \t]+/g, ' ')`.  The flag records being inside a
run of spaces/tabs whose single replacement space was already emitted. -/
def collapseRunsAux : Bool → List Char → List Char
  | _, [] => []
  | inRun, c :: rest =>
    if isHorizChar c then
      if inRun then collapseRunsAux true rest
      else ' ' :: collapseRunsAux true rest
    else c :: collapseRunsAux false rest

/-- Modelling `.replace(/[ \t]+/g, ' ')`: each maximal run of spaces/tabs becomes a
single space. -/
def collapseRuns (l : List Char) : List Char := collapseRunsAux false l

/-- Scan for `.replace(/(\n\s*){3,}/g, '\n\n')`.  With the engine's greedy
backtracking, the match starting at a line break whose whitespace run
holds at least three line breaks is that entire run; the flag records
being inside such a matched run, whose replacement `"\n\n"` was already
emitted. -/
def collapseNlAux : Bool → List Char → List Char
  | _, [] => []
  | skipping, c :: rest =>
    if skipping && isWsChar c then collapseNlAux true rest
    else if c = '\n' && 2 ≤ (rest.takeWhile isWsChar).count '\n' then
      '\n' :: '\n' :: collapseNlAux true rest
    else c :: collapseNlAux false rest

/-- Modelling `.replace(/(\n\s*){3,}/g, '\n\n')`: a whitespace run that starts at a
line break and contains three or more line breaks becomes exactly two. -/
def collapseNl (l : List Char) : List Char := collapseNlAux false l

/-- The three chained post-processing steps on `$content.text()`. -/
def postProcess (l : List Char) : List Char := trimChars (collapseNl (collapseRuns l))

/-- Concatenated children forests of a selection (what `.find(...)` and
`.text()` of the selection range over). -/
def contentChildren : List Node → NodeForest
  | [] => .nil
  | n :: rest => childrenOf n ++ contentChildren rest

/-- The rendered text of the (already pruned) content root: separators
and `br` conversion on the descendants, flatten, then post-process. -/
def renderedText (ch : NodeForest) : String :=
  ⟨postProcess (textF (replaceBrF (addSepsF ch)))⟩

/-- The function `aggressivelyCleanHtml` from junk removal to the cleaned text (link
extraction is modelled separately on the anchor list, since URL
resolution is an external concern). -/
def cleanedTextOf (doc : NodeForest) : String :=
  renderedText (pruneListsF (contentChildren (selectContent (removeJunkF doc))))

/-! ## The `/extract` endpoint -/

/-- One dictionary record of the knowledge base (the `example` field is
named `exampleText` because `example` is a Lean keyword). -/
structure ConceptRecord where
  overview : String
  explanation : String
  exampleText : String
  mistakes : String
deriving DecidableEq

/-- The response of the `/extract` route after the pipeline ran. -/
inductive EndpointResult where
  | ok (content : String) (keyConcepts : List ConceptRecord) (relatedLinks : List (String × String))
  | err (status : Nat) (error details : String)
deriving DecidableEq

/-- The tail of the route handler: empty cleaned text throws, and the
`catch` answers 500 with the generic error and the thrown message as
`details`; otherwise the success payload is sent. -/
def extractRespond (cleanedText : String) (keyConcepts : List ConceptRecord)
    (relatedLinks : List (String × String)) : EndpointResult :=
  if cleanedText = "" then
    .err 500 "Failed to fetch or process the URL."
      "The skilled editor could not extract any substantive content from the URL."
  else .ok cleanedText keyConcepts relatedLinks

/-! ## Claim C2: block-formatter round trip -/

/-- Claim C2: on the input `"# Title\n\nSome text\n\n* a\n* b\n\n```\ncode()\n```\n"`
the block formatter returns exactly the four blocks
`Heading{1, "Title"}`, `Paragraph{"Some text"}`, `BulletList{["a","b"]}`,
`CodeBlock{"code()"}`, in that order. -/
theorem format_roundtrip_c2 :
    formatContent "# Title\n\nSome text\n\n* a\n* b\n\n```\ncode()\n```\n" =
      [ContentBlock.heading 1 "Title", ContentBlock.paragraph "Some text",
       ContentBlock.bullets ["a", "b"], ContentBlock.code "code()"] := by decide

/-! ## Claim C1: the candidate score formula -/

/-- Claim C1: an element with a candidate tag (`div`/`article`/`main`/`section`)
whose class+id string contains neither `sidebar` nor `widget` and which has at
least two descendant paragraphs is scored
`classBonus + min(textLength/100, 50) + 5·paragraphCount + linkDensityPenalty`;
an element failing either disqualification check is skipped (no score). -/
theorem candidate_score_c1 (e : ElemView) (htag : e.tag ∈ candidateTags) :
    ((containsStr (toLowerStr (e.cls ++ " " ++ e.id)) "sidebar"
        || containsStr (toLowerStr (e.cls ++ " " ++ e.id)) "widget") = false →
      2 ≤ e.paragraphCount →
      scoreOf e = some
        ((if containsStr (toLowerStr (e.cls ++ " " ++ e.id)) "article"
             || containsStr (toLowerStr (e.cls ++ " " ++ e.id)) "post"
             || containsStr (toLowerStr (e.cls ++ " " ++ e.id)) "content"
          then (25 : ℚ) else 0)
         + min ((e.textLength : ℚ) / 100) 50
         + 5 * (e.paragraphCount : ℚ)
         + (if (e.linkTextLength : ℚ) / max (e.textLength : ℚ) 1 > 1/2
            then (-1000 : ℚ) else 0)))
    ∧ ((containsStr (toLowerStr (e.cls ++ " " ++ e.id)) "sidebar"
        || containsStr (toLowerStr (e.cls ++ " " ++ e.id)) "widget") = true
        ∨ e.paragraphCount < 2 →
      scoreOf e = none) := by
  constructor
  · intro hdq hpc
    unfold scoreOf
    rw [if_pos htag]
    simp only [hdq, Bool.false_eq_true, if_false, if_neg (Nat.not_lt.mpr hpc)]
    split_ifs <;> ring_nf
  · intro hdq
    unfold scoreOf
    rw [if_pos htag]
    rcases hdq with hdq | hdq
    · simp only [hdq, if_true]
    · by_cases hsw : (containsStr (toLowerStr (e.cls ++ " " ++ e.id)) "sidebar"
        || containsStr (toLowerStr (e.cls ++ " " ++ e.id)) "widget") = true
      · simp only [hsw, if_true]
      · simp only [Bool.not_eq_true] at hsw
        simp only [hsw, Bool.false_eq_true, if_false, if_pos hdq]

/-- Witness for claim C1: a `div` with class `article-body`, 3 paragraphs,
800 characters of text and no anchor text scores `25 + 8 + 15 + 0 = 48`. -/
theorem candidate_score_c1_witness :
    scoreOf ⟨"div", "article-body", "", 3, 800, 0⟩ = some 48 := by
  rw [(candidate_score_c1 ⟨"div", "article-body", "", 3, 800, 0⟩ (by decide)).1
      (by decide) (by decide)]
  norm_num +decide [min_def, max_def]

/-! ## Claim C3: list pruning by link density -/

/-- Claim C3: inside the content root a list is removed exactly when its
anchor-text length over its total text length exceeds one half, and a list
with total text length 0 (whose anchor text is then also empty) is kept:
the unguarded JS division produces `NaN > 0.5 = false` there, which behaves
exactly like treating the link density as 0. -/
theorem list_pruner_c3 (link total : Nat) (h : link ≤ total) :
    (listPruned link total = true ↔ 0 < total ∧ (link : ℚ) / (total : ℚ) > 1/2)
    ∧ (total = 0 → listPruned link total = false) := by
  by_cases ht : total = 0
  · subst ht
    have hl : link = 0 := Nat.le_zero.mp h
    subst hl
    constructor
    · constructor
      · intro hp; exact absurd hp (by decide)
      · rintro ⟨h0, _⟩; exact absurd h0 (by decide)
    · intro _; rfl
  · constructor
    · unfold listPruned
      rw [if_neg ht]
      rw [decide_eq_true_eq]
      constructor
      · intro hgt; exact ⟨Nat.pos_of_ne_zero ht, hgt⟩
      · rintro ⟨_, hgt⟩; exact hgt
    · intro h0; exact absurd h0 ht

/-- Witness for claim C3: a list with 8 characters of anchor text out of 10
total is pruned; this applies the pruner theorem at `link = 8`, `total = 10`. -/
theorem list_pruner_c3_witness : listPruned 8 10 = true :=
  (list_pruner_c3 8 10 (by norm_num)).1.mpr ⟨by norm_num, by norm_num⟩

/-! ## Claim C9: empty extraction is an error, never an empty success -/

/-- Claim C9: when the pipeline's cleaned text is empty the route answers
with the 500 error whose `details` message says no substantive content could
be extracted, and a success response never carries empty content. -/
theorem extract_error_c9 (text : String) (ks : List ConceptRecord)
    (ls : List (String × String)) :
    (text = "" → extractRespond text ks ls =
      .err 500 "Failed to fetch or process the URL."
        "The skilled editor could not extract any substantive content from the URL.")
    ∧ (∀ c k l, extractRespond text ks ls = .ok c k l → c ≠ "") := by
  constructor
  · intro h
    unfold extractRespond
    rw [if_pos h]
  · intro c k l hok
    unfold extractRespond at hok
    by_cases h : text = ""
    · rw [if_pos h] at hok; exact absurd hok (by simp)
    · rw [if_neg h] at hok
      cases hok
      exact h

/-- A page consisting solely of denylisted subtrees: a `nav`, a `footer`
and an `.ad` container inside the body. -/
def onlyJunkDoc : NodeForest :=
  nfOf [Node.elem "html" "" ""
    (nfOf [Node.elem "body" "" ""
      (nfOf [Node.elem "nav" "" "" (nfOf [Node.text "Home"]),
             Node.elem "footer" "" "" (nfOf [Node.text "Imprint"]),
             Node.elem "div" "ad" "" (nfOf [Node.text "Buy now"])])])]

/-- Witness for claim C9: running the pipeline on `onlyJunkDoc` yields empty
cleaned text, and the endpoint theorem turns that into the 500 error with
the no-substantive-content message. -/
theorem extract_error_c9_witness :
    extractRespond (cleanedTextOf onlyJunkDoc) [] [] =
      .err 500 "Failed to fetch or process the URL."
        "The skilled editor could not extract any substantive content from the URL." :=
  (extract_error_c9 (cleanedTextOf onlyJunkDoc) [] []).1 (by decide)


/-! ## Claim C4: related-link dedup, order and cap -/

/-- First-seen dedup only drops elements, in place. -/
theorem dedupKeepFirst_sublist : ∀ l : List (String × String), (dedupKeepFirst l).Sublist l
  | [] => List.Sublist.refl _
  | a :: rest => by
    simp only [dedupKeepFirst]
    exact ((List.filter_sublist _).trans (dedupKeepFirst_sublist rest)).cons₂ a

/-- First-seen dedup leaves no duplicate pairs. -/
theorem dedupKeepFirst_nodup : ∀ l : List (String × String), (dedupKeepFirst l).Nodup
  | [] => List.nodup_nil
  | a :: rest => by
    simp only [dedupKeepFirst]
    refine List.nodup_cons.mpr ⟨?_, (dedupKeepFirst_nodup rest).filter _⟩
    intro hmem
    have := List.of_mem_filter hmem
    simp at this

/-- On an input with no duplicates, first-seen dedup is the identity. -/
theorem dedupKeepFirst_of_nodup : ∀ l : List (String × String), l.Nodup → dedupKeepFirst l = l
  | [], _ => rfl
  | a :: rest, h => by
    have h1 : a ∉ rest := (List.nodup_cons.mp h).1
    simp only [dedupKeepFirst, dedupKeepFirst_of_nodup rest (List.nodup_cons.mp h).2]
    rw [List.filter_eq_self.mpr]
    intro b hb
    exact decide_eq_true (fun he => h1 (he ▸ hb))

/-- Claim C4: the related-links result is deduplicated by the
`(title, url)` pair, keeps first-seen document order (it is a sublist of
the qualifying anchors), never holds more than 5 entries, and on 12
distinct qualifying anchors holds exactly 5. -/
theorem related_links_c4 (anchors : List (String × String)) :
    (relatedLinksOf anchors).length ≤ 5
    ∧ (relatedLinksOf anchors).Nodup
    ∧ (relatedLinksOf anchors).Sublist anchors
    ∧ (anchors.Nodup → anchors.length = 12 → (relatedLinksOf anchors).length = 5) := by
  refine ⟨?_, ?_, ?_, ?_⟩
  · unfold relatedLinksOf
    rw [List.length_take]
    exact min_le_left _ _
  · exact (dedupKeepFirst_nodup anchors).sublist (List.take_sublist _ _)
  · exact (List.take_sublist _ _).trans (dedupKeepFirst_sublist anchors)
  · intro hnd hlen
    unfold relatedLinksOf
    rw [dedupKeepFirst_of_nodup anchors hnd, List.length_take, hlen]
    decide

/-- Witness for claim C4: 12 distinct qualifying anchors produce exactly
the 5-entry cap. -/
theorem related_links_c4_witness :
    (relatedLinksOf
      [("t1", "u1"), ("t2", "u2"), ("t3", "u3"), ("t4", "u4"), ("t5", "u5"), ("t6", "u6"),
       ("t7", "u7"), ("t8", "u8"), ("t9", "u9"), ("t10", "u10"), ("t11", "u11"),
       ("t12", "u12")]).length = 5 :=
  (related_links_c4
    [("t1", "u1"), ("t2", "u2"), ("t3", "u3"), ("t4", "u4"), ("t5", "u5"), ("t6", "u6"),
     ("t7", "u7"), ("t8", "u8"), ("t9", "u9"), ("t10", "u10"), ("t11", "u11"),
     ("t12", "u12")]).2.2.2 (by decide) (by decide)

/-! ## Claim C8: the content-root fallback -/

/-- A document with no scorable candidate and no `article` element: only
`html`, `body` and a short paragraph. -/
def noArticleDoc : NodeForest :=
  nfOf [Node.elem "html" "" ""
    (nfOf [Node.elem "body" "" ""
      (nfOf [Node.elem "p" "" "" (nfOf [Node.text "hi"])])])]

/-- The same document with the paragraph wrapped in an `article` element
(still nothing scorable: `article` has only one paragraph). -/
def withArticleDoc : NodeForest :=
  nfOf [Node.elem "html" "" ""
    (nfOf [Node.elem "body" "" ""
      (nfOf [Node.elem "article" "" ""
        (nfOf [Node.elem "p" "" "" (nfOf [Node.text "hi"])])])])]

/-- Claim C8, evaluated at the failing input: when the winner is unset and
an `article` exists, it is selected as the claim says; but on
`noArticleDoc` — winner unset, no `article` — the selected content root is
the empty selection, not the document body, which is present and would
have rendered the text `"hi"`.  The cleaned text therefore comes out
empty.  (`$('article').first()` is an empty-but-truthy cheerio object, so
the `|| $('body')` fallback of the source is unreachable.) -/
theorem fallback_no_article_c8 :
    (selectContent withArticleDoc).map tagOf = ["article"]
    ∧ (selectContent noArticleDoc).map tagOf = []
    ∧ ((nodesF noArticleDoc).filter (fun n => tagOf n = "body")).map tagOf = ["body"]
    ∧ renderedText (contentChildren
        (((nodesF noArticleDoc).filter (fun n => tagOf n = "body")).take 1)) = "hi"
    ∧ cleanedTextOf noArticleDoc = "" := by
  refine ⟨by decide, by decide, by decide, by decide, by decide⟩

/-! ## Claim C5: the junk denylist -/

/-- Forest append unfolding, left nil. -/
theorem nfAppend_nil_l (ys : NodeForest) : NodeForest.nil ++ ys = ys := rfl

/-- Forest append unfolding, left cons. -/
theorem nfAppend_cons_l (x : Node) (xs ys : NodeForest) :
    (NodeForest.cons x xs) ++ ys = .cons x (xs ++ ys) := rfl

/-- The map `nodesF` distributes over forest append. -/
theorem nodesF_append : ∀ xs ys : NodeForest, nodesF (xs ++ ys) = nodesF xs ++ nodesF ys
  | .nil, _ => rfl
  | .cons x xs, ys => by
    show nodesN x ++ nodesF (xs ++ ys) = (nodesN x ++ nodesF xs) ++ nodesF ys
    rw [nodesF_append xs ys, List.append_assoc]

mutual
/-- No element left below a junk-cleaned node is junk-matched. -/
theorem junkRemovedNodeAux : ∀ (n : Node), ∀ m ∈ nodesF (removeJunkN n),
    junkMatch (tagOf m) (clsOf m) (idOf m) = false
  | .text s => by
    intro m hm
    simp [removeJunkN, nodesF, nodesN] at hm
  | .elem t c i ch => by
    intro m hm
    by_cases hj : junkMatch t c i = true
    · rw [removeJunkN, if_pos hj] at hm
      simp [nodesF] at hm
    · rw [removeJunkN, if_neg hj] at hm
      have hm' : m = Node.elem t c i (removeJunkF ch) ∨ m ∈ nodesF (removeJunkF ch) := by
        simpa [nodesF, nodesN] using hm
      rcases hm' with hm' | hm'
      · subst hm'
        simpa [tagOf, clsOf, idOf] using Bool.not_eq_true _ ▸ hj
      · exact junkRemovedForestAux ch m hm'
/-- No element left in a junk-cleaned forest is junk-matched. -/
theorem junkRemovedForestAux : ∀ (ns : NodeForest), ∀ m ∈ nodesF (removeJunkF ns),
    junkMatch (tagOf m) (clsOf m) (idOf m) = false
  | .nil => by intro m hm; simp [removeJunkF, nodesF] at hm
  | .cons n rest => by
    intro m hm
    rw [show removeJunkF (.cons n rest) = removeJunkN n ++ removeJunkF rest from rfl,
        nodesF_append, List.mem_append] at hm
    rcases hm with hm | hm
    · exact junkRemovedNodeAux n m hm
    · exact junkRemovedForestAux rest m hm
end

/-- Claim C5 (amended): junk removal deletes every subtree whose tag is
`nav`/`header`/`footer`/`aside`/`form`/`iframe`, whose `class` attribute
contains one of the denylisted names as an exact whitespace-separated
token, or whose `id` equals `sidebar`; no element matched by these
selectors survives into any later pipeline step. -/
theorem junk_removed_c5 (ns : NodeForest) (m : Node) (hm : m ∈ nodesF (removeJunkF ns)) :
    junkMatch (tagOf m) (clsOf m) (idOf m) = false :=
  junkRemovedForestAux ns m hm

/-- Counterexample for claim C5 as stated: the class value `main-sidebar`
contains `sidebar` as a substring, so the claim demands removal, but the
CSS class selector `.sidebar` matches only exact class tokens and the
element survives junk removal. -/
theorem junk_substring_counterexample_c5 :
    containsStr (toLowerStr "main-sidebar") "sidebar" = true
    ∧ junkMatch "div" "main-sidebar" "" = false
    ∧ (nodesF (removeJunkF
        (nfOf [Node.elem "div" "main-sidebar" "" (nfOf [Node.text "x"])]))).map
        (fun n => (tagOf n, clsOf n, idOf n)) = [("div", "main-sidebar", "")] := by
  refine ⟨by decide, by decide, by decide⟩

/-- Witness for claim C5 (amended): in a forest holding a `nav` and a
plain `div`, the `div` survives and is indeed not junk-matched. -/
theorem junk_removed_c5_witness : junkMatch "div" "content-area" "" = false :=
  junk_removed_c5
    (nfOf [Node.elem "nav" "" "" .nil, Node.elem "div" "content-area" "" .nil])
    (Node.elem "div" "content-area" "" .nil) (by decide)

/-! ## Claim C7: heading lines -/

/-- The nested `startsWith('###')/startsWith('##')` tests of the source
compute the number of leading `#` characters capped at 3. -/
theorem startsHashLevel : ∀ l : List Char, startsList ['#'] l = true →
    (if startsList ['#', '#', '#'] l = true then (3 : Nat)
     else if startsList ['#', '#'] l = true then 2 else 1)
    = min ((l.takeWhile (fun c => c = '#')).length) 3
  | [], h => by simp [startsList] at h
  | c :: rest, h => by
    have hc : '#' = c := by simpa [startsList] using h
    subst hc
    rcases rest with _ | ⟨c2, rest2⟩
    · decide
    · by_cases hc2 : '#' = c2
      · subst hc2
        rcases rest2 with _ | ⟨c3, rest3⟩
        · decide
        · by_cases hc3 : '#' = c3
          · subst hc3
            simp [startsList, List.takeWhile]
          · have hc3' : ¬(c3 = '#') := fun he => hc3 he.symm
            simp [startsList, List.takeWhile, hc3, hc3']
      · have hc2' : ¬(c2 = '#') := fun he => hc2 he.symm
        simp [startsList, List.takeWhile, hc2, hc2']

/-- String-level form of `startsHashLevel`. -/
theorem headingLevelEq (t : String) (h : strStarts t "#" = true) :
    (if strStarts t "###" then (3 : Nat) else if strStarts t "##" then 2 else 1)
    = min ((t.data.takeWhile (fun c => c = '#')).length) 3 :=
  startsHashLevel t.data h

/-- Claim C7 (amended): outside a code segment, a line whose trimmed form
starts with `#` yields a heading whose level is the number of leading `#`
characters capped at 3 and whose text is the line with **all** `#`
characters removed (not only the leading markers), then trimmed. -/
theorem heading_line_c7 (st : FmtState) (line : String)
    (hcode : st.inCode = false) (hhash : strStarts (jsTrim line) "#" = true) :
    formatStep st line =
      { flushList st with blocks := (flushList st).blocks ++
          [ContentBlock.heading
            (min (((jsTrim line).data.takeWhile (fun c => c = '#')).length) 3)
            (jsTrim ⟨(jsTrim line).data.filter (fun c => c ≠ '#')⟩)] } := by
  have hfence : strStarts (jsTrim line) "```" = false := by
    rcases hd : (jsTrim line).data with _ | ⟨c, rest⟩
    · show startsList "```".data (jsTrim line).data = false
      rw [hd]
      decide
    · have hc : '#' = c := by
        have h' : startsList ['#'] (jsTrim line).data = true := hhash
        rw [hd] at h'
        simpa [startsList] using h'
      show startsList "```".data (jsTrim line).data = false
      rw [hd, ← hc]
      simp [startsList]
  unfold formatStep
  rw [if_neg (by simp [hfence]), if_neg (by simp [hcode]), if_pos hhash,
      headingLevelEq (jsTrim line) hhash]

/-- Counterexample for claim C7 as stated: the heading line `# Use #tags`
keeps, per the claim, its later `#`; the code's global `replace(/#/g, '')`
deletes it as well. -/
theorem heading_strip_counterexample_c7 :
    formatContent "# Use #tags" = [ContentBlock.heading 1 "Use tags"]
    ∧ ("Use tags" : String) ≠ "Use #tags" := ⟨by decide, by decide⟩

/-- Witness for claim C7 (amended): the line `## Sub` in the initial state
emits `Heading{2, "Sub"}`. -/
theorem heading_line_c7_witness :
    formatStep ⟨[], none, false, ""⟩ "## Sub" =
      ⟨[ContentBlock.heading 2 "Sub"], none, false, ""⟩ := by
  rw [heading_line_c7 ⟨[], none, false, ""⟩ "## Sub" rfl (by decide)]
  decide

/-! ## Claim C10: emitted blocks are never degenerate -/

/-- The invariant claimed for emitted blocks: bullet lists are nonempty
and paragraphs have nonempty text. -/
def blockOk : ContentBlock → Prop
  | .bullets items => items ≠ []
  | .paragraph t => t ≠ ""
  | _ => True

/-- The scan invariant: all emitted blocks are fine and an open bullet
list is never empty. -/
def stOk (st : FmtState) : Prop :=
  (∀ b ∈ st.blocks, blockOk b) ∧ ∀ l, st.currentList = some l → l ≠ []

/-- Flushing preserves the scan invariant. -/
theorem stOk_flush (st : FmtState) (h : stOk st) : stOk (flushList st) := by
  rcases hcl : st.currentList with _ | l
  · simp only [flushList, hcl]
    exact h
  · simp only [flushList, hcl]
    refine ⟨?_, ?_⟩
    · intro b hb
      rcases List.mem_append.mp hb with hb | hb
      · exact h.1 b hb
      · have hb' : b = ContentBlock.bullets l := List.mem_singleton.mp hb
        subst hb'
        exact h.2 l hcl
    · intro l' hl'
      simp at hl'

/-- One scan step preserves the scan invariant. -/
theorem stOk_step (st : FmtState) (line : String) (h : stOk st) :
    stOk (formatStep st line) := by
  have hf := stOk_flush st h
  unfold formatStep
  by_cases h1 : strStarts (jsTrim line) "```" = true
  · rw [if_pos h1]
    by_cases h2 : st.inCode = true
    · rw [if_pos h2]
      refine ⟨?_, hf.2⟩
      intro b hb
      rcases List.mem_append.mp hb with hb | hb
      · exact hf.1 b hb
      · have hb' := List.mem_singleton.mp hb
        subst hb'
        trivial
    · rw [if_neg h2]
      exact ⟨hf.1, hf.2⟩
  · rw [if_neg h1]
    by_cases h2 : st.inCode = true
    · rw [if_pos h2]
      exact ⟨h.1, h.2⟩
    · rw [if_neg h2]
      by_cases h3 : strStarts (jsTrim line) "#" = true
      · rw [if_pos h3]
        refine ⟨?_, hf.2⟩
        intro b hb
        rcases List.mem_append.mp hb with hb | hb
        · exact hf.1 b hb
        · have hb' := List.mem_singleton.mp hb
          subst hb'
          trivial
      · rw [if_neg h3]
        by_cases h4 : (strStarts (jsTrim line) "* " || strStarts (jsTrim line) "- ") = true
        · rw [if_pos h4]
          rcases hcl : st.currentList with _ | items
          · simp only [hcl]
            refine ⟨h.1, ?_⟩
            intro l hl
            have hl' : some [(⟨(jsTrim line).data.drop 2⟩ : String)] = some l := hl
            cases hl'
            simp
          · simp only [hcl]
            refine ⟨h.1, ?_⟩
            intro l hl
            have hl' : some (items ++ [(⟨(jsTrim line).data.drop 2⟩ : String)]) = some l := hl
            cases hl'
            simp
        · rw [if_neg h4]
          by_cases h5 : jsTrim line ≠ ""
          · rw [if_pos h5]
            refine ⟨?_, hf.2⟩
            intro b hb
            rcases List.mem_append.mp hb with hb | hb
            · exact hf.1 b hb
            · have hb' := List.mem_singleton.mp hb
              subst hb'
              exact h5
          · rw [if_neg h5]
            exact ⟨hf.1, hf.2⟩

/-- The whole scan preserves the invariant. -/
theorem stOk_foldl : ∀ (lines : List String) (st : FmtState), stOk st →
    stOk (lines.foldl formatStep st)
  | [], _, h => h
  | line :: rest, st, h => stOk_foldl rest (formatStep st line) (stOk_step st line h)

/-- Claim C10: every bullets block the formatter emits has at least one
item, and every paragraph block has nonempty text. -/
theorem blocks_invariant_c10 (text : String) (b : ContentBlock)
    (hb : b ∈ formatContent text) : blockOk b := by
  unfold formatContent at hb
  by_cases ht : text = ""
  · rw [if_pos ht] at hb
    simp at hb
  · rw [if_neg ht] at hb
    have h0 : stOk ⟨[], none, false, ""⟩ := ⟨by simp, by simp⟩
    exact (stOk_flush _ (stOk_foldl (splitLines text) _ h0)).1 b hb

/-- Witness for claim C10: the bullets block emitted for `"* a"` is
nonempty. -/
theorem blocks_invariant_c10_witness : blockOk (ContentBlock.bullets ["a"]) :=
  blocks_invariant_c10 "* a" (ContentBlock.bullets ["a"]) (by decide)

/-! ## Claim C6: the text renderer -/

/-- Forest append is associative. -/
theorem nfAppend_assoc : ∀ a b c : NodeForest, (a ++ b) ++ c = a ++ (b ++ c)
  | .nil, _, _ => rfl
  | .cons x a, b, c => by
    show NodeForest.cons x ((a ++ b) ++ c) = NodeForest.cons x (a ++ (b ++ c))
    rw [nfAppend_assoc a b c]

/-- The map `textF` distributes over forest append. -/
theorem textF_append : ∀ xs ys : NodeForest, textF (xs ++ ys) = textF xs ++ textF ys
  | .nil, _ => rfl
  | .cons x xs, ys => by
    show textN x ++ textF (xs ++ ys) = (textN x ++ textF xs) ++ textF ys
    rw [textF_append xs ys, List.append_assoc]

/-- The map `addSepsF` distributes over forest append. -/
theorem addSepsF_append : ∀ xs ys : NodeForest, addSepsF (xs ++ ys) = addSepsF xs ++ addSepsF ys
  | .nil, _ => rfl
  | .cons x xs, ys => by
    show addSepsN x ++ addSepsF (xs ++ ys) = (addSepsN x ++ addSepsF xs) ++ addSepsF ys
    rw [addSepsF_append xs ys, nfAppend_assoc]

/-- The map `replaceBrF` distributes over forest append. -/
theorem replaceBrF_append : ∀ xs ys : NodeForest,
    replaceBrF (xs ++ ys) = replaceBrF xs ++ replaceBrF ys
  | .nil, _ => rfl
  | .cons x xs, ys => by
    show replaceBrN x ++ replaceBrF (xs ++ ys) = (replaceBrN x ++ replaceBrF xs) ++ replaceBrF ys
    rw [replaceBrF_append xs ys, nfAppend_assoc]

/-- A `takeWhile` swallows exactly a satisfying run when the tail starts
with a non-satisfying character. -/
theorem takeWhileAppendAll (p : Char → Bool) : ∀ (rs post : List Char),
    (∀ c ∈ rs, p c = true) → (∀ c ∈ post.take 1, p c = false) →
    (rs ++ post).takeWhile p = rs
  | [], post, _, hpost => by
    cases post with
    | nil => rfl
    | cons c cs =>
      have hc : p c = false := hpost c (by simp)
      simp [List.takeWhile_cons, hc]
  | r :: rs, post, hrs, hpost => by
    have hr : p r = true := hrs r (by simp)
    simp only [List.cons_append, List.takeWhile_cons, hr, if_true]
    rw [takeWhileAppendAll p rs post (fun c hc => hrs c (by simp [hc])) hpost]

/-- A `dropWhile` drops exactly a satisfying run when the tail starts with
a non-satisfying character. -/
theorem dropWhileAppendAll (p : Char → Bool) : ∀ (rs post : List Char),
    (∀ c ∈ rs, p c = true) → (∀ c ∈ post.take 1, p c = false) →
    (rs ++ post).dropWhile p = post
  | [], post, _, hpost => by
    cases post with
    | nil => rfl
    | cons c cs =>
      have hc : p c = false := hpost c (by simp)
      simp [List.dropWhile_cons, hc]
  | r :: rs, post, hrs, hpost => by
    have hr : p r = true := hrs r (by simp)
    simp only [List.cons_append, List.dropWhile_cons, hr, if_true]
    exact dropWhileAppendAll p rs post (fun c hc => hrs c (by simp [hc])) hpost

/-- Once inside a replaced horizontal run, the scan skips to the first
non-horizontal character. -/
theorem collapseRunsAuxSkip : ∀ (rs post : List Char),
    (∀ c ∈ rs, isHorizChar c = true) → (∀ c ∈ post.take 1, isHorizChar c = false) →
    collapseRunsAux true (rs ++ post) = collapseRunsAux false post
  | [], post, _, hpost => by
    cases post with
    | nil => rfl
    | cons c cs =>
      have hc : isHorizChar c = false := hpost c (by simp)
      simp [collapseRunsAux, hc]
  | r :: rs, post, hrs, hpost => by
    have hr : isHorizChar r = true := hrs r (by simp)
    simp only [List.cons_append, collapseRunsAux, hr, if_true]
    exact collapseRunsAuxSkip rs post (fun c hc => hrs c (by simp [hc])) hpost

/-- A maximal nonempty run of spaces/tabs becomes a single space. -/
theorem collapseRunsRun : ∀ (pre run post : List Char),
    (∀ c ∈ pre, isHorizChar c = false) → run ≠ [] →
    (∀ c ∈ run, isHorizChar c = true) → (∀ c ∈ post.take 1, isHorizChar c = false) →
    collapseRunsAux false (pre ++ run ++ post) = pre ++ ' ' :: collapseRunsAux false post
  | [], run, post, _, hne, hrun, hpost => by
    cases run with
    | nil => exact absurd rfl hne
    | cons r rs =>
      have hr : isHorizChar r = true := hrun r (by simp)
      simp only [List.nil_append, List.cons_append, collapseRunsAux, hr, if_true,
        Bool.false_eq_true, if_false, List.append_eq]
      rw [collapseRunsAuxSkip rs post (fun c hc => hrun c (by simp [hc])) hpost]
  | c :: pre, run, post, hpre, hne, hrun, hpost => by
    have hc : isHorizChar c = false := hpre c (by simp)
    simp only [List.cons_append, collapseRunsAux, hc, Bool.false_eq_true, if_false,
      List.append_eq]
    rw [collapseRunsRun pre run post (fun x hx => hpre x (by simp [hx])) hne hrun hpost]

/-- Once inside a replaced line-break run, the scan skips to the first
non-whitespace character. -/
theorem collapseNlAuxSkip : ∀ (rs post : List Char),
    (∀ c ∈ rs, isWsChar c = true) → (∀ c ∈ post.take 1, isWsChar c = false) →
    collapseNlAux true (rs ++ post) = collapseNlAux false post
  | [], post, _, hpost => by
    cases post with
    | nil => rfl
    | cons c cs =>
      have hc : isWsChar c = false := hpost c (by simp)
      have hcn : ¬(c = '\n') := by
        intro h
        subst h
        simp [isWsChar] at hc
      simp [collapseNlAux, hc, hcn]
  | r :: rs, post, hrs, hpost => by
    have hr : isWsChar r = true := hrs r (by simp)
    simp only [List.cons_append, collapseNlAux, hr, Bool.and_self, Bool.true_and, if_true,
      List.append_eq]
    exact collapseNlAuxSkip rs post (fun c hc => hrs c (by simp [hc])) hpost

/-- A whitespace run with at most two line breaks is passed through
unchanged (there is no match of the replaced pattern inside it). -/
theorem collapseNlFewAux : ∀ (run post : List Char),
    (∀ c ∈ run, isWsChar c = true) → run.count '\n' ≤ 2 →
    (∀ c ∈ post.take 1, isWsChar c = false) →
    collapseNlAux false (run ++ post) = run ++ collapseNlAux false post
  | [], _, _, _, _ => rfl
  | c :: rs, post, hws, hcount, hpost => by
    have hrs : ∀ x ∈ rs, isWsChar x = true := fun x hx => hws x (by simp [hx])
    by_cases hcn : c = '\n'
    · subst hcn
      have htake : (rs ++ post).takeWhile isWsChar = rs :=
        takeWhileAppendAll _ rs post hrs hpost
      have hrscnt : rs.count '\n' ≤ 1 := by
        have hc : ('\n' :: rs).count '\n' = rs.count '\n' + 1 := List.count_cons_self _ _
        omega
      have hcnt : ¬ (2 ≤ ((rs ++ post).takeWhile isWsChar).count '\n') := by
        rw [htake]
        omega
      simp only [List.cons_append, collapseNlAux, Bool.false_and, Bool.false_eq_true, if_false,
        List.append_eq]
      rw [if_neg (by simp [hcnt]),
          collapseNlFewAux rs post hrs (by omega) hpost]
    · have hrscnt : rs.count '\n' ≤ 2 := by
        have hc : (c :: rs).count '\n' = rs.count '\n' :=
          List.count_cons_of_ne (fun he => hcn he.symm) _
        omega
      simp only [List.cons_append, collapseNlAux, Bool.false_and, Bool.false_eq_true, if_false,
        List.append_eq]
      rw [if_neg (by simp [hcn]), collapseNlFewAux rs post hrs hrscnt hpost]

/-- Behaviour of the line-break collapse on a maximal whitespace run
flanked by non-whitespace: when the run starts at a line break and holds
three or more line breaks, the entire run — any interspersed or trailing
spaces included — becomes exactly two line breaks; a run with two or
fewer line breaks stays as it is. -/
theorem collapseNlRuns : ∀ (pre run post : List Char),
    (∀ c ∈ pre, isWsChar c = false) → (∀ c ∈ run, isWsChar c = true) →
    (∀ c ∈ post.take 1, isWsChar c = false) →
    (run.head? = some '\n' → 3 ≤ run.count '\n' →
        collapseNlAux false (pre ++ run ++ post)
          = pre ++ '\n' :: '\n' :: collapseNlAux false post)
    ∧ (run.count '\n' ≤ 2 →
        collapseNlAux false (pre ++ run ++ post)
          = pre ++ run ++ collapseNlAux false post)
  | [], run, post, _, hrun, hpost => by
    constructor
    · intro hhead h3
      rcases run with _ | ⟨c, rs⟩
      · simp at hhead
      · have hc : c = '\n' := by simpa using hhead
        subst hc
        have hrs : ∀ x ∈ rs, isWsChar x = true := fun x hx => hrun x (by simp [hx])
        have htake : (rs ++ post).takeWhile isWsChar = rs :=
          takeWhileAppendAll _ rs post hrs hpost
        have hcnt : 2 ≤ ((rs ++ post).takeWhile isWsChar).count '\n' := by
          rw [htake]
          have hcc : ('\n' :: rs).count '\n' = rs.count '\n' + 1 := List.count_cons_self _ _
          omega
        simp only [List.nil_append, List.cons_append, collapseNlAux, Bool.false_and,
          Bool.false_eq_true, if_false, List.append_eq]
        rw [if_pos (by simp [hcnt]), collapseNlAuxSkip rs post hrs hpost]
    · intro h2
      simpa using collapseNlFewAux run post hrun h2 hpost
  | c :: pre, run, post, hpre, hrun, hpost => by
    have hc : isWsChar c = false := hpre c (by simp)
    have hcn : ¬(c = '\n') := by
      intro h
      subst h
      simp [isWsChar] at hc
    have IH := collapseNlRuns pre run post (fun x hx => hpre x (by simp [hx])) hrun hpost
    constructor
    · intro hhead h3
      simp only [List.cons_append, collapseNlAux, Bool.false_and, Bool.false_eq_true, if_false,
        List.append_eq]
      rw [if_neg (by simp [hcn]), IH.1 hhead h3]
    · intro h2
      simp only [List.cons_append, collapseNlAux, Bool.false_and, Bool.false_eq_true, if_false,
        List.append_eq]
      rw [if_neg (by simp [hcn]), IH.2 h2]

/-- The head surviving `dropWhile` does not satisfy the predicate. -/
theorem headDropWhileNotP (p : Char → Bool) : ∀ (l : List Char) (c : Char),
    (l.dropWhile p).head? = some c → p c = false
  | [], c, h => by simp [List.dropWhile] at h
  | a :: l, c, h => by
    by_cases ha : p a = true
    · rw [List.dropWhile_cons, if_pos ha] at h
      exact headDropWhileNotP p l c h
    · rw [List.dropWhile_cons, if_neg ha] at h
      have hac : a = c := by simpa using h
      subst hac
      exact Bool.not_eq_true _ ▸ ha

/-- A `dropWhile` produces a suffix. -/
theorem dropWhileSfxDecomp (p : Char → Bool) : ∀ l : List Char, ∃ t, l = t ++ l.dropWhile p
  | [] => ⟨[], rfl⟩
  | a :: l => by
    by_cases ha : p a = true
    · obtain ⟨t, ht⟩ := dropWhileSfxDecomp p l
      refine ⟨a :: t, ?_⟩
      rw [List.dropWhile_cons, if_pos ha, List.cons_append, ← ht]
    · refine ⟨[], ?_⟩
      rw [List.dropWhile_cons, if_neg ha, List.nil_append]

/-- The last element of an appended nonempty list. -/
theorem getLastAppendRight (t s : List Char) (hs : s ≠ []) :
    (t ++ s).getLast? = s.getLast? := by
  rw [← List.head?_reverse, List.reverse_append, ← List.head?_reverse s]
  cases hrev : s.reverse with
  | nil => exact absurd (by simpa using hrev) hs
  | cons a as => simp [hrev]

/-- Claim C6 (amended): before flattening, the renderer inserts a double
line break after every `h1`/`h2`/`h3`/`h4`/`p`/`li`/`pre` element — and
after no other element, in particular not after `div`, `tr` or
`blockquote` — and turns each `br` into a single line break; the
post-processing collapses every maximal run of spaces and tabs to one
space, collapses 3 or more consecutive line breaks to exactly two, and
the final trim leaves neither leading nor trailing whitespace.  The
line-break conjunct covers every maximal whitespace run that starts at a
line break: with three or more line breaks in it — in particular any run
of 3 or more consecutive line breaks, trailing or interspersed spaces
included — the whole run becomes exactly two, and with two or fewer line
breaks the run is left unchanged. -/
theorem text_renderer_c6 :
    (∀ (t c i : String) (ch pre post : NodeForest), t ∈ blockTags →
      textF (addSepsF (pre ++ NodeForest.cons (Node.elem t c i ch) post))
        = textF (addSepsF pre) ++ textF (addSepsF ch) ++ ['\n', '\n'] ++ textF (addSepsF post))
    ∧ (∀ (t c i : String) (ch pre post : NodeForest), t ∉ blockTags →
      textF (addSepsF (pre ++ NodeForest.cons (Node.elem t c i ch) post))
        = textF (addSepsF pre) ++ textF (addSepsF ch) ++ textF (addSepsF post))
    ∧ (∀ (c i : String) (pre post : NodeForest),
      textF (replaceBrF (pre ++ NodeForest.cons (Node.elem "br" c i .nil) post))
        = textF (replaceBrF pre) ++ ['\n'] ++ textF (replaceBrF post))
    ∧ (∀ pre run post : List Char, (∀ c ∈ pre, isHorizChar c = false) →
        run ≠ [] → (∀ c ∈ run, isHorizChar c = true) →
        (∀ c ∈ post.take 1, isHorizChar c = false) →
        collapseRuns (pre ++ run ++ post) = pre ++ ' ' :: collapseRuns post)
    ∧ (∀ pre run post : List Char, (∀ c ∈ pre, isWsChar c = false) →
        (∀ c ∈ run, isWsChar c = true) → (∀ c ∈ post.take 1, isWsChar c = false) →
        (run.head? = some '\n' → 3 ≤ run.count '\n' →
            collapseNl (pre ++ run ++ post) = pre ++ '\n' :: '\n' :: collapseNl post)
        ∧ (run.count '\n' ≤ 2 →
            collapseNl (pre ++ run ++ post) = pre ++ run ++ collapseNl post))
    ∧ (∀ l : List Char,
        (∀ c, (trimChars l).head? = some c → isWsChar c = false)
        ∧ (∀ c, (trimChars l).getLast? = some c → isWsChar c = false)) := by
  refine ⟨?_, ?_, ?_, ?_, ?_, ?_⟩
  · intro t c i ch pre post ht
    have hstep : addSepsN (Node.elem t c i ch)
        = NodeForest.cons (Node.elem t c i (addSepsF ch))
            (NodeForest.cons (Node.text "\n\n") .nil) := by
      show (if t ∈ blockTags
            then NodeForest.cons (Node.elem t c i (addSepsF ch))
                   (NodeForest.cons (Node.text "\n\n") .nil)
            else NodeForest.cons (Node.elem t c i (addSepsF ch)) .nil) = _
      rw [if_pos ht]
    rw [addSepsF_append, textF_append,
        show addSepsF (NodeForest.cons (Node.elem t c i ch) post)
          = addSepsN (Node.elem t c i ch) ++ addSepsF post from rfl,
        textF_append, hstep]
    show textF (addSepsF pre)
        ++ ((textF (addSepsF ch) ++ ("\n\n".data ++ [])) ++ textF (addSepsF post)) = _
    simp [List.append_assoc]
  · intro t c i ch pre post ht
    have hstep : addSepsN (Node.elem t c i ch)
        = NodeForest.cons (Node.elem t c i (addSepsF ch)) .nil := by
      show (if t ∈ blockTags
            then NodeForest.cons (Node.elem t c i (addSepsF ch))
                   (NodeForest.cons (Node.text "\n\n") .nil)
            else NodeForest.cons (Node.elem t c i (addSepsF ch)) .nil) = _
      rw [if_neg ht]
    rw [addSepsF_append, textF_append,
        show addSepsF (NodeForest.cons (Node.elem t c i ch) post)
          = addSepsN (Node.elem t c i ch) ++ addSepsF post from rfl,
        textF_append, hstep]
    show textF (addSepsF pre) ++ ((textF (addSepsF ch) ++ []) ++ textF (addSepsF post)) = _
    simp [List.append_assoc]
  · intro c i pre post
    have hstep : replaceBrN (Node.elem "br" c i .nil)
        = NodeForest.cons (Node.text "\n") .nil := by
      show (if "br" = "br"
            then NodeForest.cons (Node.text "\n") .nil
            else NodeForest.cons (Node.elem "br" c i (replaceBrF .nil)) .nil) = _
      rw [if_pos rfl]
    rw [replaceBrF_append, textF_append,
        show replaceBrF (NodeForest.cons (Node.elem "br" c i .nil) post)
          = replaceBrN (Node.elem "br" c i .nil) ++ replaceBrF post from rfl,
        textF_append, hstep]
    show textF (replaceBrF pre) ++ (("\n".data ++ []) ++ textF (replaceBrF post)) = _
    simp [List.append_assoc]
  · intro pre run post hpre hne hrun hpost
    exact collapseRunsRun pre run post hpre hne hrun hpost
  · intro pre run post hpre hrun hpost
    exact collapseNlRuns pre run post hpre hrun hpost
  · intro l
    constructor
    · intro c hc
      unfold trimChars at hc
      rw [List.head?_reverse] at hc
      set m := (l.dropWhile isWsChar).reverse with hm
      have hne : m.dropWhile isWsChar ≠ [] := by
        intro h
        rw [h] at hc
        simp at hc
      obtain ⟨t, ht⟩ := dropWhileSfxDecomp isWsChar m
      have : m.getLast? = some c := by
        rw [ht, getLastAppendRight t _ hne]
        exact hc
      rw [hm, List.getLast?_reverse] at this
      exact headDropWhileNotP isWsChar _ c this
    · intro c hc
      unfold trimChars at hc
      rw [List.getLast?_reverse] at hc
      exact headDropWhileNotP isWsChar _ c hc

/-- Counterexample for claim C6 as stated: two sibling `div`s render with
no separator between their texts — `div` is not in the `after('\n\n')`
selector of the scorer pipeline — so the claimed `"a\n\nb"` would differ
from the actual `"ab"`. -/
theorem div_no_separator_counterexample_c6 :
    renderedText (nfOf [Node.elem "div" "" "" (nfOf [Node.text "a"]),
                        Node.elem "div" "" "" (nfOf [Node.text "b"])]) = "ab"
    ∧ ("ab" : String) ≠ "a\n\nb" := ⟨by decide, by decide⟩

/-- Witness for claim C6 (amended): a `p` element gets the double line
break; a run of three consecutive line breaks flanked by letters
collapses to two, as does the mixed run of `"a\n \n \nb"`. -/
theorem text_renderer_c6_witness :
    textF (addSepsF (NodeForest.nil ++ NodeForest.cons
        (Node.elem "p" "" "" (NodeForest.cons (Node.text "x") .nil)) .nil))
      = textF (addSepsF .nil) ++ textF (addSepsF (NodeForest.cons (Node.text "x") .nil))
        ++ ['\n', '\n'] ++ textF (addSepsF .nil)
    ∧ collapseNl ("a".data ++ ['\n', '\n', '\n'] ++ "b".data)
      = "a".data ++ '\n' :: '\n' :: collapseNl "b".data
    ∧ collapseNl ("a".data ++ ['\n', ' ', '\n', ' ', '\n'] ++ "b".data)
      = "a".data ++ '\n' :: '\n' :: collapseNl "b".data := by
  refine ⟨?_, ?_, ?_⟩
  · exact text_renderer_c6.1 "p" "" "" (NodeForest.cons (Node.text "x") .nil) .nil .nil
      (by decide)
  · exact (text_renderer_c6.2.2.2.2.1 "a".data ['\n', '\n', '\n'] "b".data
      (by decide) (by decide) (by decide)).1 (by decide) (by decide)
  · exact (text_renderer_c6.2.2.2.2.1 "a".data ['\n', ' ', '\n', ' ', '\n'] "b".data
      (by decide) (by decide) (by decide)).1 (by decide) (by decide)
